import Mathlib

/-!
Verification of the mempool reconnaissance engine
(`exp/tx-search/tx_search.py` and `exp/tx-search/txpool_probe.py`).

Python strings are modelled as lists of characters (`Str`), Python dicts
either as association lists (when insertion order / size is observable) or
as total functions with the dict's default value (when only lookup with a
default is observable), Python sets as `Finset`, and each RPC interaction
as an oracle returning `Option` (with `none` standing for the exception
path of the surrounding `try`/`except`).
-/

/-- A Python `str`, modelled as its list of characters. -/
abbrev Str := List Char

/-- Python `str.strip()` / whitespace test: the ASCII whitespace characters
Python strips by default. -/
def pyIsSpace (c : Char) : Bool :=
  c = ' ' || c = '\t' || c = '\n' || c = '\r' || c = Char.ofNat 11 || c = Char.ofNat 12

/-- Lower-case one character, as Python `str.lower()` does on ASCII. -/
def toLowerChar (c : Char) : Char :=
  if 'A' ≤ c && c ≤ 'Z' then Char.ofNat (c.toNat + 32) else c

/-- Python `s.lower()`. -/
def pyLower (s : Str) : Str := s.map toLowerChar

/-- Python `s.strip()`. -/
def pyStrip (s : Str) : Str :=
  ((s.dropWhile pyIsSpace).reverse.dropWhile pyIsSpace).reverse

/-- ASCII decimal digit test (`\d` in the source's regular expressions). -/
def isDigitC (c : Char) : Bool := '0' ≤ c && c ≤ '9'

/-- ASCII hex digit test (`[0-9a-fA-F]` in the source's regular expressions). -/
def isHexDigitC (c : Char) : Bool :=
  isDigitC c || ('a' ≤ c && c ≤ 'f') || ('A' ≤ c && c ≤ 'F')

/-- Value of a hex digit. -/
def hexDigitVal (c : Char) : Nat :=
  if isDigitC c then c.toNat - 48
  else if 'a' ≤ c && c ≤ 'f' then c.toNat - 87
  else c.toNat - 55

/-- Python `int(s)` on a string of decimal digits; `none` on any other
string (the `ValueError` path). -/
def parseDecDigits (s : Str) : Option Nat :=
  if s.isEmpty then none
  else if s.all isDigitC then some (s.foldl (fun acc c => acc * 10 + (c.toNat - 48)) 0)
  else none

/-- Python `int(s, 16)` on a string of hex digits; `none` on any other
string (the `ValueError` path). -/
def parseHexDigits (s : Str) : Option Nat :=
  if s.isEmpty then none
  else if s.all isHexDigitC then some (s.foldl (fun acc c => acc * 16 + hexDigitVal c) 0)
  else none

/-- Nonce parsing as done in both scripts:
`int(nonce_str, 0) if nonce_str.startswith("0x") else int(nonce_str)`
(`tx_search.py` line 211, raising on failure) and the equivalent
`try`/`except` chain in `txpool_probe.py` lines 181-187 / 197-203
(skipping on failure).  `none` models the `ValueError` path.  The modelled
grammar is `0x`-prefixed hex and plain decimal digits — the two forms
`txpool_inspect` produces; other exotic Python integer literal forms are
treated as failures. -/
def parse_nonce (s : Str) : Option Nat :=
  if s.take 2 = ['0', 'x'] then parseHexDigits (s.drop 2) else parseDecDigits s

/-- `normalize_tx_hash` from `tx_search.py` lines 113-118: strip, add a
`0x` prefix when the (case-sensitive) prefix test fails, lower-case. -/
def normalize_tx_hash (h : Str) : Str :=
  let t := pyStrip h
  pyLower (if t.take 2 = ['0', 'x'] then t else '0' :: 'x' :: t)

/-- `normalize_address` from `tx_search.py` lines 121-126 (same steps as
`normalize_tx_hash`). -/
def normalize_address (a : Str) : Str :=
  let t := pyStrip a
  pyLower (if t.take 2 = ['0', 'x'] then t else '0' :: 'x' :: t)

/-- Helper for Python `s.split(",")`: accumulates the current fragment
(reversed) while scanning. -/
def splitCommaAux (cur : Str) : Str → List Str
  | [] => [cur.reverse]
  | c :: rest =>
    if c = ',' then cur.reverse :: splitCommaAux [] rest
    else splitCommaAux (c :: cur) rest

/-- Python `s.split(",")`. -/
def pySplitComma (s : Str) : List Str := splitCommaAux [] s

/-- `parse_tx_hashes` from `tx_search.py` lines 129-140: split on commas,
strip each piece, keep the non-empty ones, normalize each.  Note that no
deduplication is performed. -/
def parse_tx_hashes (s : Str) : List Str :=
  if s.isEmpty then []
  else (((pySplitComma s).map pyStrip).filter (fun t => !t.isEmpty)).map normalize_tx_hash

/-- `parse_tx_addresses` from `tx_search.py` lines 143-154. -/
def parse_tx_addresses (s : Str) : List Str :=
  if s.isEmpty then []
  else (((pySplitComma s).map pyStrip).filter (fun t => !t.isEmpty)).map normalize_address

/-!
### Summary-text pattern matching (`txpool_probe.py` lines 112-131)

Each pattern in the source is `KEY\s*[:=]\s*(0x[0-9a-fA-F]+|\d+)` compiled
with `re.IGNORECASE`; `re.search` finds the leftmost position where the
whole pattern matches.  We model this directly: scan positions left to
right, and at each position try to match the key case-insensitively, then
greedy whitespace, one of `:` `=`, greedy whitespace, then the number
token (the `0x`-hex alternative first, falling back to a digit run).
-/

/-- Case-insensitive literal match of `key` at the head of `s`; returns
the remainder on success. -/
def matchKeyCI : Str → Str → Option Str
  | [], rest => some rest
  | _ :: _, [] => none
  | k :: ks, c :: cs =>
    if toLowerChar c = toLowerChar k then matchKeyCI ks cs else none

/-- The number token `(0x[0-9a-fA-F]+|\d+)` at the head of `s`: the hex
alternative (with `0x`/`0X` — the patterns are case-insensitive) needs at
least one hex digit, otherwise the digit-run alternative applies.
Returns the matched group text. -/
def matchNumberTok (s : Str) : Option Str :=
  match s with
  | c0 :: c1 :: rest =>
    if c0 = '0' && toLowerChar c1 = 'x' && !(rest.takeWhile isHexDigitC).isEmpty then
      some (c0 :: c1 :: rest.takeWhile isHexDigitC)
    else if (s.takeWhile isDigitC).isEmpty then none
    else some (s.takeWhile isDigitC)
  | _ =>
    if (s.takeWhile isDigitC).isEmpty then none
    else some (s.takeWhile isDigitC)

/-- `hex_to_int` from `txpool_probe.py` lines 93-101 restricted to string
input: hex when the string starts with (case-sensitive) `0x`, decimal
otherwise.  `none` models the `ValueError` path (in the source an
exception, uncaught at the classification call site; no claim exercises
it, and the embedding treats it as "no value found"). -/
def hex_to_int_str (s : Str) : Option Nat :=
  if s.take 2 = ['0', 'x'] then parseHexDigits (s.drop 2) else parseDecDigits s

/-- Try the full pattern (key, `\s*`, `[:=]`, `\s*`, number) at the head
of `s`, returning the converted captured number. -/
def tryMatchAt (key : Str) (s : Str) : Option Nat :=
  match matchKeyCI key s with
  | none => none
  | some r1 =>
    match r1.dropWhile pyIsSpace with
    | [] => none
    | c :: r3 =>
      if c = ':' || c = '=' then
        match matchNumberTok (r3.dropWhile pyIsSpace) with
        | some grp => hex_to_int_str grp
        | none => none
      else none

/-- Leftmost match of the pattern for `key` anywhere in the text
(`re.search` semantics for the source's patterns). -/
def findKeyNumber (key : Str) : Str → Option Nat
  | [] => none
  | c :: rest =>
    match tryMatchAt key (c :: rest) with
    | some v => some v
    | none => findKeyNumber key rest

/-- `parse_int_from_patterns` from `txpool_probe.py` lines 126-131: first
pattern (here: key) that matches anywhere in the text wins. -/
def parse_int_from_patterns (text : Str) : List Str → Option Nat
  | [] => none
  | k :: ks =>
    match findKeyNumber k text with
    | some v => some v
    | none => parse_int_from_patterns text ks

/-- Keys of `INSPECT_FEE_REGEXES` (`feeCap`, `maxFeePerGas`). -/
def inspectFeeKeys : List Str :=
  [['f','e','e','C','a','p'],
   ['m','a','x','F','e','e','P','e','r','G','a','s']]

/-- Keys of `INSPECT_TIP_REGEXES` (`tip`, `maxPriorityFeePerGas`). -/
def inspectTipKeys : List Str :=
  [['t','i','p'],
   ['m','a','x','P','r','i','o','r','i','t','y','F','e','e','P','e','r','G','a','s']]

/-- Keys of `INSPECT_GASPRICE_REGEXES` (`gasprice`, `gasPrice`; both
case-insensitive, hence equivalent). -/
def inspectGaspriceKeys : List Str :=
  [['g','a','s','p','r','i','c','e'],
   ['g','a','s','P','r','i','c','e']]

/-!
### `txpool_probe.py` — state aggregation (lines 153-214)
-/

/-- One deduplicable queued entry `(from, nonce, summary)`
(`txpool_probe.py` line 157). -/
structure QueuedEntry where
  addr : Str
  nonce : Nat
  summary : Str
deriving DecidableEq, Repr

/-- Registering this intermediate instance keeps instance search for the
derived `DecidableEq` instances below their depth limit. -/
instance : DecidableEq (Str × Option (List (Str × Str))) := inferInstance

/-- One `txpool_inspect` result as consumed by `analyze`:
`pending` maps addresses to their nonce keys (only the keys are read,
lines 176-188), `queued` maps addresses to `(nonce, summary)` pairs
(lines 191-204).  The outer `Option` is `insp.get(...) or {}` followed by
the `isinstance(..., dict)` guard (`none` = a non-dict value, section
skipped); the inner per-address `Option` is the `isinstance(nonce_map,
dict)` guard. -/
structure ProbeSnapshot where
  pending : Option (List (Str × Option (List Str)))
  queued : Option (List (Str × Option (List (Str × Str))))
deriving DecidableEq, Repr

/-- The probe's accumulated state across inspect hits:
`pending_nonces` models the dict `address -> set(nonces)` as the lookup
function with the dict's default `set()` (the only reads are
`.get(a, set())`), `queued_raw` is the `queued_entries` list before the
line-209 deduplication, and `inspect_polls` counts `txpool_inspect`
calls. -/
structure ProbeState where
  pending_nonces : Str → Finset Nat
  queued_raw : List QueuedEntry
  inspect_polls : Nat

/-- Initial probe state (lines 156-157). -/
def initProbeState : ProbeState :=
  { pending_nonces := fun _ => ∅, queued_raw := [], inspect_polls := 0 }

/-- Harvest one pending address block (`txpool_probe.py` lines 179-188):
add each parseable nonce to the address's set, skipping malformed ones. -/
def harvestBlock (a : Str) : List Str → (Str → Finset Nat) → (Str → Finset Nat)
  | [], pn => pn
  | nstr :: rest, pn =>
    match parse_nonce nstr with
    | none => harvestBlock a rest pn
    | some n => harvestBlock a rest (fun x => if x = a then insert n (pn x) else pn x)

/-- Harvest the whole pending section (lines 176-188); a non-dict
nonce map contributes nothing to the sets. -/
def harvestPending : List (Str × Option (List Str)) → (Str → Finset Nat) → (Str → Finset Nat)
  | [], pn => pn
  | (_, none) :: rest, pn => harvestPending rest pn
  | (addr, some nstrs) :: rest, pn => harvestPending rest (harvestBlock (pyLower addr) nstrs pn)

/-- Collect one queued address block (lines 196-204): append each
parseable entry, skipping malformed nonces. -/
def collectBlock (a : Str) : List (Str × Str) → List QueuedEntry → List QueuedEntry
  | [], acc => acc
  | (nstr, summary) :: rest, acc =>
    match parse_nonce nstr with
    | none => collectBlock a rest acc
    | some n => collectBlock a rest (acc ++ [⟨a, n, summary⟩])

/-- Collect the whole queued section (lines 191-204). -/
def collectQueued : List (Str × Option (List (Str × Str))) → List QueuedEntry → List QueuedEntry
  | [], acc => acc
  | (_, none) :: rest, acc => collectQueued rest acc
  | (addr, some entries) :: rest, acc => collectQueued rest (collectBlock (pyLower addr) entries acc)

/-- Ingest one inspect snapshot into the probe state (lines 173-204). -/
def ingestProbe (snap : ProbeSnapshot) (st : ProbeState) : ProbeState :=
  { pending_nonces :=
      match snap.pending with
      | none => st.pending_nonces
      | some blocks => harvestPending blocks st.pending_nonces
    queued_raw :=
      match snap.queued with
      | none => st.queued_raw
      | some blocks => collectQueued blocks st.queued_raw
    inspect_polls := st.inspect_polls }

/-- Ingest a sequence of snapshots in order. -/
def runIngest (snaps : List ProbeSnapshot) : ProbeState :=
  snaps.foldl (fun st snap => ingestProbe snap st) initProbeState

/-- The deduplicated queued-entry set
(`queued_entries = list({(a, n, s) for ...})`, line 209). -/
def queuedSet (st : ProbeState) : Finset QueuedEntry := st.queued_raw.toFinset

/-- The `(address, nonce)` pairs a snapshot's pending section contributes
(lower-cased address, parsed nonce). -/
def snapPendingPairs (snap : ProbeSnapshot) : List (Str × Nat) :=
  match snap.pending with
  | none => []
  | some blocks =>
    blocks.flatMap fun b =>
      match b.2 with
      | none => []
      | some nstrs =>
        nstrs.filterMap fun nstr => (parse_nonce nstr).map fun n => (pyLower b.1, n)

/-- The queued entries a snapshot contributes, in iteration order. -/
def snapQueuedEntries (snap : ProbeSnapshot) : List QueuedEntry :=
  match snap.queued with
  | none => []
  | some blocks =>
    blocks.flatMap fun b =>
      match b.2 with
      | none => []
      | some entries =>
        entries.filterMap fun p =>
          (parse_nonce p.1).map fun n => QueuedEntry.mk (pyLower b.1) n p.2

/-- The inspect-poll loop (`txpool_probe.py` lines 165-206): each
iteration consumes one round of the budget; a failed `txpool_inspect`
call (`none`) is skipped with `continue`.  The per-round
`get_pending_basefee_wei` call at line 166 stores into a variable that is
never read and is omitted. -/
def inspectLoop (oracle : Nat → Option ProbeSnapshot) : Nat → ProbeState → ProbeState
  | 0, st => st
  | k + 1, st =>
    let st' := { st with inspect_polls := st.inspect_polls + 1 }
    match oracle st'.inspect_polls with
    | none => inspectLoop oracle k st'
    | some snap => inspectLoop oracle k (ingestProbe snap st')

/-- `for _ in range(max(1, INSPECT_HITS))` (line 165). -/
def runInspect (hits : Nat) (oracle : Nat → Option ProbeSnapshot) : ProbeState :=
  inspectLoop oracle (max 1 hits) initProbeState

/-- Running maxima tracked by the status-sampling loop, plus the number of
`txpool_status` calls made. -/
structure StatusStats where
  max_pending : Nat
  max_queued : Nat
  polls : Nat
deriving DecidableEq, Repr

/-- The status-sampling loop (`txpool_probe.py` lines 140-151): each
iteration polls once (a failure, `none`, is swallowed by `pass`) and
updates the running maxima. -/
def statusLoop (oracle : Nat → Option (Nat × Nat)) : Nat → StatusStats → StatusStats
  | 0, st => st
  | k + 1, st =>
    let st' := { st with polls := st.polls + 1 }
    match oracle st'.polls with
    | none => statusLoop oracle k st'
    | some pq =>
      statusLoop oracle k
        { st' with
          max_pending := if pq.1 > st'.max_pending then pq.1 else st'.max_pending
          max_queued := if pq.2 > st'.max_queued then pq.2 else st'.max_queued }

/-- `for _ in range(max(1, SAMPLES))` (line 140). -/
def runStatusSampling (samples : Nat) (oracle : Nat → Option (Nat × Nat)) : StatusStats :=
  statusLoop oracle (max 1 samples) ⟨0, 0, 0⟩

/-!
### `txpool_probe.py` — classifier (lines 216-257)
-/

/-- The classification verdicts (the four reason strings of line 162). -/
inductive Reason
  | nonce_gap
  | below_floor
  | under_basefee
  | unknown
deriving DecidableEq, Repr

/-- The classifier's external environment: the `eth_getTransactionCount`
oracle (`none` = the call raised) and the `eth_getBlockByNumber` pending
base-fee oracle (`none` = the call raised; successive calls are modelled
as returning the same result).  `wei_floor` is the source's `WEI_FLOOR =
int(GAS_PRICE_FLOOR_GWEI * 10**9)` (line 70), kept as an integer since the
configured gwei floor is a float. -/
structure ClassifyEnv where
  nextNonce : Str → Option Nat
  basefee : Option Nat
  wei_floor : Int

/-- `get_next_nonce` (lines 217-226): on a failed lookup the nonce
defaults to `0`.  The memoization cache is transparent for a
deterministic oracle and is not modelled. -/
def get_next_nonce (env : ClassifyEnv) (addr : Str) : Nat :=
  (env.nextNonce addr).getD 0

/-- `get_pending_basefee_wei` (lines 104-109): `0` on any failure. -/
def get_pending_basefee_wei (env : ClassifyEnv) : Nat :=
  env.basefee.getD 0

/-- `has_all_prior = all(n in pending_for_addr for n in range(nn, max(nn,
nonce)))` (line 233), with `pending_for_addr = pending_nonces.get(addr,
set())`. -/
def has_all_prior (env : ClassifyEnv) (pending_nonces : Str → Finset Nat)
    (e : QueuedEntry) : Bool :=
  let nn := get_next_nonce env e.addr
  (List.range' nn (max nn e.nonce - nn)).all fun n => decide (n ∈ pending_nonces e.addr)

/-- `is_nonce_gap = nonce > nn and not has_all_prior` (line 234). -/
def is_nonce_gap (env : ClassifyEnv) (pending_nonces : Str → Finset Nat)
    (e : QueuedEntry) : Bool :=
  decide (e.nonce > get_next_nonce env e.addr) && !has_all_prior env pending_nonces e

/-- Classification of one queued entry (`txpool_probe.py` lines 229-253):
nonce gap first; otherwise parse the summary for a legacy gas price, an
EIP-1559 fee cap and a tip; a found gas price below `max(WEI_FLOOR, 0)`
gives `below_floor`; else (`elif`) — only when no gas price was found — a
found fee cap below the freshly fetched pending base fee gives
`under_basefee`; otherwise `unknown`. -/
def classifyEntry (env : ClassifyEnv) (pending_nonces : Str → Finset Nat)
    (e : QueuedEntry) : Reason :=
  if is_nonce_gap env pending_nonces e then .nonce_gap
  else
    let fee_cap := parse_int_from_patterns e.summary inspectFeeKeys
    let _tip_cap := parse_int_from_patterns e.summary inspectTipKeys
    let gas_price := parse_int_from_patterns e.summary inspectGaspriceKeys
    match gas_price with
    | some gp => if (gp : Int) < max env.wei_floor 0 then .below_floor else .unknown
    | none =>
      match fee_cap with
      | some fc => if fc < get_pending_basefee_wei env then .under_basefee else .unknown
      | none => .unknown

/-!
### `txpool_probe.py` — consolidated per-sender view (lines 259-321)
-/

/-- One row of the consolidated per-sender table (`summarize_addr`,
lines 263-284). -/
structure ConsolidatedRow where
  address : Str
  next_nonce : Nat
  pending_count : Nat
  queued_count : Nat
  pending_min : Option Nat
  pending_max : Option Nat
  queued_min : Option Nat
  queued_max : Option Nat
  first_gap_nonce : Nat
  has_union_nonce_gap : Bool
  reasons : List (Reason × Nat)
deriving DecidableEq, Repr

/-- Fuel-bounded version of the line-269 `while first_gap in pending:
first_gap += 1` loop; `pend.card + 1` units of fuel suffice because each
loop step consumes a distinct member of `pend`. -/
def firstGapAux (pend : Finset Nat) : Nat → Nat → Nat
  | 0, n => n
  | fuel + 1, n => if n ∈ pend then firstGapAux pend fuel (n + 1) else n

/-- First nonce `≥ nn` absent from the pending set (lines 268-270). -/
def first_gap (pend : Finset Nat) (nn : Nat) : Nat :=
  firstGapAux pend (pend.card + 1) nn

/-- `queued_nonces_by_addr` (lines 212-214) as a lookup function with the
dict's default `set()`. -/
def queued_nonces_by_addr (entries : List QueuedEntry) : Str → Finset Nat :=
  fun a => (entries.filterMap fun e => if e.addr = a then some e.nonce else none).toFinset

/-- `summarize_addr` (lines 263-284).  `reasons_by_sender` is passed as a
lookup function with the dict's default `{}`. -/
def summarize_addr (env : ClassifyEnv) (pending_nonces : Str → Finset Nat)
    (queued_nonces : Str → Finset Nat) (reasons_by_sender : Str → List (Reason × Nat))
    (a : Str) : ConsolidatedRow :=
  let pn := (pending_nonces a).sort (· ≤ ·)
  let qn := (queued_nonces a).sort (· ≤ ·)
  let nn := get_next_nonce env a
  let fg := first_gap (pending_nonces a) nn
  let minq := match qn.head? with | some m => m | none => fg
  { address := a
    next_nonce := nn
    pending_count := pn.length
    queued_count := qn.length
    pending_min := pn.head?
    pending_max := pn.getLast?
    queued_min := qn.head?
    queued_max := qn.getLast?
    first_gap_nonce := fg
    has_union_nonce_gap := (qn.any fun q => decide (q > nn)) && decide (fg < minq)
    reasons := reasons_by_sender a }

/-- Stable insertion of `a` into a sorted list: `a` is placed before the
first element `b` with `le a b`.  Folding this over a list from the right
is a stable sort, hence produces exactly the list Python's stable
`sorted` produces for the same (total, transitive) `le`. -/
def insertSorted (le : α → α → Bool) (a : α) : List α → List α
  | [] => [a]
  | b :: rest => if le a b then a :: b :: rest else b :: insertSorted le a rest

/-- Python `sorted(rows, key=..., reverse=True)` for a total transitive
comparison `le` (here: `le r s` iff `r` may come before `s`). -/
def pySorted (le : α → α → Bool) (l : List α) : List α :=
  l.foldr (insertSorted le) []

/-- The descending-lexicographic comparison used at line 319:
`key=lambda r: (r["queued_count"], r["pending_count"])` with
`reverse=True` — `r` may come before `s` iff `(s.queued_count,
s.pending_count) ≤ (r.queued_count, r.pending_count)` lexicographically. -/
def rowGE (r s : ConsolidatedRow) : Bool :=
  decide (s.queued_count < r.queued_count ∨
    (s.queued_count = r.queued_count ∧ s.pending_count ≤ r.pending_count))

/-- The consolidated table (lines 312-321): sort all rows by
`(queued_count, pending_count)` descending, truncate to
`CONSOLIDATED_LIMIT` rows. -/
def consolidatedTable (rows : List ConsolidatedRow) (limit : Nat) : List ConsolidatedRow :=
  (pySorted rowGE rows).take limit

/-!
### `tx_search.py` — search mode (lines 157-274)
-/

/-- The raw record stored for one transaction in an inspect snapshot:
its `hash` field (the only field `tx_search.py` reads) plus the rest of
the record, kept opaque. -/
structure TxData where
  hash : Str
  rest : Str
deriving DecidableEq, Repr

/-- The `tx_info` record built at lines 214-220 / 245-251. -/
structure TxInfo where
  status : Str
  address : Str
  nonce : Nat
  data : TxData
  found_in_hit : Nat
deriving DecidableEq, Repr

/-- The literal `"pending"`. -/
def pendingStr : Str := ['p', 'e', 'n', 'd', 'i', 'n', 'g']

/-- The literal `"queued"`. -/
def queuedStr : Str := ['q', 'u', 'e', 'u', 'e', 'd']

/-- The search targets (already-normalized hash and address lists, as
produced by `parse_tx_hashes` / `parse_tx_addresses`). -/
structure SearchTargets where
  hashes : List Str
  addresses : List Str

/-- One `txpool_inspect` result as consumed by `search_transactions`:
per section, per address, an ordered list of `(nonce_str, value)` pairs
where `none` stands for a value that is not a dict or lacks a `hash` key
(silently skipped, line 209/240).  The outer and per-address `Option`s
are the `isinstance(..., dict)` guards (lines 203/207/234/238). -/
structure SearchSnapshot where
  pending : Option (List (Str × Option (List (Str × Option TxData))))
  queued : Option (List (Str × Option (List (Str × Option TxData))))

/-- Python dict assignment `d[k] = v` on an association list: replace in
place if the key is present, append otherwise. -/
def dictInsert [DecidableEq α] (k : α) (v : β) : List (α × β) → List (α × β)
  | [] => [(k, v)]
  | (k', v') :: rest =>
    if k = k' then (k, v) :: rest else (k', v') :: dictInsert k v rest

/-- Python dict lookup `d.get(k)` on an association list. -/
def dictLookup [DecidableEq α] (k : α) : List (α × β) → Option β
  | [] => none
  | (k', v) :: rest => if k = k' then some v else dictLookup k rest

/-- `found_by_address.setdefault(k, []).append(v)` on an association
list. -/
def dictAppend (k : Str) (v : TxInfo) : List (Str × List TxInfo) → List (Str × List TxInfo)
  | [] => [(k, [v])]
  | (k', vs) :: rest =>
    if k = k' then (k', vs ++ [v]) :: rest else (k', vs) :: dictAppend k v rest

/-- The mutable state of `search_transactions`: the two result dicts
(lines 182-183) and the `search_stats` counters (lines 184-190). -/
structure SearchState where
  found_transactions : List (Str × TxInfo)
  found_by_address : List (Str × List TxInfo)
  total_hits : Nat
  successful_hits : Nat
  failed_hits : Nat
  pending_searches : Nat
  queued_searches : Nat
deriving DecidableEq, Repr

/-- The initial search state. -/
def initSearchState : SearchState :=
  { found_transactions := [], found_by_address := [],
    total_hits := 0, successful_hits := 0, failed_hits := 0,
    pending_searches := 0, queued_searches := 0 }

/-- Record one matched entry (lines 222-230 / 253-261): an unconditional
dict assignment into `found_transactions` when the hash is a target, and
an append into `found_by_address` when the sender is a target. -/
def applyMatch (targets : SearchTargets) (txh : Str) (info : TxInfo)
    (st : SearchState) : SearchState :=
  let st :=
    if txh ∈ targets.hashes then
      { st with found_transactions := dictInsert txh info st.found_transactions }
    else st
  if info.address ∈ targets.addresses then
    { st with found_by_address := dictAppend info.address info st.found_by_address }
  else st

/-- Process one `(nonce_str, tx_data)` entry (lines 208-230 / 239-261).
A `none` value (non-dict or no `hash` key) is skipped silently; a nonce
that fails to parse returns `none` — the `ValueError` of the unguarded
`int(...)` at line 211/242, which propagates to the per-hit `except`. -/
def processEntry (targets : SearchTargets) (hit : Nat) (status : Str) (addrN : Str)
    (nstr : Str) (v : Option TxData) (st : SearchState) : Option SearchState :=
  match v with
  | none => some st
  | some d =>
    let txh := normalize_tx_hash d.hash
    match parse_nonce nstr with
    | none => none
    | some nonce => some (applyMatch targets txh ⟨status, addrN, nonce, d, hit⟩ st)

/-- Process the entries of one address in order; the Boolean is `false`
when a nonce `ValueError` aborted the iteration (state mutations made so
far are kept — Python exceptions do not roll back). -/
def processEntries (targets : SearchTargets) (hit : Nat) (status : Str) (addrN : Str) :
    List (Str × Option TxData) → SearchState → SearchState × Bool
  | [], st => (st, true)
  | (nstr, v) :: rest, st =>
    match processEntry targets hit status addrN nstr v st with
    | none => (st, false)
    | some st' => processEntries targets hit status addrN rest st'

/-- Process the address blocks of one section (lines 205-230 / 236-261);
an address whose nonce map is not a dict is skipped; an abort in one
block stops the whole iteration. -/
def processBlocks (targets : SearchTargets) (hit : Nat) (status : Str) :
    List (Str × Option (List (Str × Option TxData))) → SearchState → SearchState × Bool
  | [], st => (st, true)
  | (addr, nmap) :: rest, st =>
    match nmap with
    | none => processBlocks targets hit status rest st
    | some entries =>
      match processEntries targets hit status (normalize_address addr) entries st with
      | (st', true) => processBlocks targets hit status rest st'
      | (st', false) => (st', false)

/-- Process one successful snapshot (lines 201-262): pending section then
queued section, each bumping its counter when it is a dict; the Boolean
is `false` when a nonce `ValueError` aborted processing. -/
def processSnapshot (targets : SearchTargets) (hit : Nat) (snap : SearchSnapshot)
    (st : SearchState) : SearchState × Bool :=
  let stp :=
    match snap.pending with
    | none => (st, true)
    | some blocks =>
      processBlocks targets hit pendingStr blocks
        { st with pending_searches := st.pending_searches + 1 }
  match stp with
  | (st, false) => (st, false)
  | (st, true) =>
    match snap.queued with
    | none => (st, true)
    | some blocks =>
      processBlocks targets hit queuedStr blocks
        { st with queued_searches := st.queued_searches + 1 }

/-- One round of the search loop (lines 193-267): `total_hits` always
bumps; a failed RPC call (`none`) bumps `failed_hits`; a successful call
bumps `successful_hits` first and additionally bumps `failed_hits` when a
nonce `ValueError` aborted snapshot processing (the `except` at line
265). -/
def processHit (targets : SearchTargets) (hit : Nat) (h : Option SearchSnapshot)
    (st : SearchState) : SearchState :=
  match h with
  | none =>
    { st with total_hits := st.total_hits + 1, failed_hits := st.failed_hits + 1 }
  | some snap =>
    match processSnapshot targets hit snap
      { st with total_hits := st.total_hits + 1,
                successful_hits := st.successful_hits + 1 } with
    | (st', true) => st'
    | (st', false) => { st' with failed_hits := st'.failed_hits + 1 }

/-- The early-exit test at line 270:
`if target_hashes and len(found_transactions) == len(target_hashes)`. -/
def exitCond (targets : SearchTargets) (st : SearchState) : Bool :=
  !targets.hashes.isEmpty && st.found_transactions.length == targets.hashes.length

/-- The search loop (lines 193-274): process each hit in increasing
hit-number order, breaking right after the first hit whose resulting
state satisfies the early-exit test. -/
def searchRun (targets : SearchTargets) : Nat → List (Option SearchSnapshot) →
    SearchState → SearchState
  | _, [], st => st
  | n, h :: rest, st =>
    let st' := processHit targets n h st
    if exitCond targets st' then st' else searchRun targets (n + 1) rest st'

/-- `search_transactions` restricted to its sampling/aggregation core:
run the loop from hit 1 on the given per-round inputs (`none` = the RPC
call raised). -/
def search_transactions (targets : SearchTargets) (hits : List (Option SearchSnapshot)) :
    SearchState :=
  searchRun targets 1 hits initSearchState

/-- Ingestion without the scheduler: fold the per-hit inputs in order
with their hit numbers, with no early exit.  This is the aggregator whose
algebraic properties §4.4 of the spec describes. -/
def foldHits (targets : SearchTargets) : Nat → List (Option SearchSnapshot) →
    SearchState → SearchState
  | _, [], st => st
  | n, h :: rest, st => foldHits targets (n + 1) rest (processHit targets n h st)

/-- "Every target hash has a `found_by_hash` entry" — the stopping
condition as the spec words it (plus the code's guard that hash-based
early exit only applies when there are target hashes). -/
def allFoundNow (targets : SearchTargets) (st : SearchState) : Bool :=
  !targets.hashes.isEmpty &&
    targets.hashes.all fun h => (dictLookup h st.found_transactions).isSome

/-- The spec-side scheduler (§4.3 / §8 of the spec, worded from
"terminates early the moment every target hash has a `found_by_hash`
entry"): walk the rounds in order and return the number of the round
after which every target hash has an entry, or the full budget when that
never happens.  Address-only searches (no target hashes) always exhaust
the budget. -/
def specStop (targets : SearchTargets) : Nat → List (Option SearchSnapshot) →
    SearchState → Nat
  | _, [], st => st.total_hits
  | n, h :: rest, st =>
    let st' := processHit targets n h st
    if allFoundNow targets st' then st'.total_hits else specStop targets (n + 1) rest st'

/-!
### Concrete inputs used by witnesses and counterexamples

All hashes / addresses below are already in normalized form, and nonce
strings are the decimal form `txpool_inspect` produces.
-/

/-- The summary text `gasPrice=100,feeCap=10`: a legacy gas price and a
fee cap in the same summary. -/
def exSummaryBoth : Str :=
  ['g','a','s','P','r','i','c','e','=','1','0','0',',','f','e','e','C','a','p','=','1','0']

/-- The summary text `feeCap=10`. -/
def exSummaryFee : Str := ['f','e','e','C','a','p','=','1','0']

/-- Target hash `0xaa`. -/
def exHashA : Str := ['0','x','a','a']

/-- Target hash `0xbb`. -/
def exHashB : Str := ['0','x','b','b']

/-- Target hash `0xcc`. -/
def exHashC : Str := ['0','x','c','c']

/-- A non-target hash `0xee`. -/
def exHashX : Str := ['0','x','e','e']

/-- Sender address `0x01`. -/
def exAddr1 : Str := ['0','x','0','1']

/-- Sender address `0x02`. -/
def exAddr2 : Str := ['0','x','0','2']

/-- A snapshot whose pending section holds hash `0xaa` at nonce 7 from
sender `0x01`. -/
def exSnapPA : SearchSnapshot :=
  ⟨some [(exAddr1, some [(['7'], some ⟨exHashA, []⟩)])], some []⟩

/-- A snapshot whose queued section holds hash `0xaa` at nonce 9 from
sender `0x02`. -/
def exSnapQA : SearchSnapshot :=
  ⟨some [], some [(exAddr2, some [(['9'], some ⟨exHashA, []⟩)])]⟩

/-- A snapshot whose queued section holds hash `0xbb` at nonce 9 from
sender `0x02`. -/
def exSnapQB : SearchSnapshot :=
  ⟨some [], some [(exAddr2, some [(['9'], some ⟨exHashB, []⟩)])]⟩

/-- A snapshot whose pending section holds, in iteration order, a
well-formed entry for target `0xaa` (nonce `1`), an entry with the
malformed nonce string `zz`, and a well-formed entry for target `0xcc`
(nonce `2`). -/
def exBadSnap : SearchSnapshot :=
  ⟨some [(exAddr1, some
      [(['1'], some ⟨exHashA, []⟩),
       (['z','z'], some ⟨exHashX, []⟩),
       (['2'], some ⟨exHashC, []⟩)])],
   some []⟩

/-- A probe snapshot: sender `0x01` pending at nonce 3, queued at nonce 5
with a fee-cap summary. -/
def exProbeSnapA : ProbeSnapshot :=
  ⟨some [(exAddr1, some [['3']])], some [(exAddr1, some [(['5'], exSummaryFee)])]⟩

/-- A probe snapshot: sender `0x02` pending at nonce 4, nothing queued. -/
def exProbeSnapB : ProbeSnapshot :=
  ⟨some [(exAddr2, some [['4']])], some []⟩

/-!
## Helper lemmas
-/

theorem dictLookup_dictInsert_self [DecidableEq α] (k : α) (v : β) (l : List (α × β)) :
    dictLookup k (dictInsert k v l) = some v := by
  induction l with
  | nil => simp [dictInsert, dictLookup]
  | cons p rest ih =>
    by_cases h : k = p.1
    · simp [dictInsert, dictLookup, h]
    · simp [dictInsert, dictLookup, h, ih]

theorem dictLookup_dictInsert_ne [DecidableEq α] (k k' : α) (v : β) (l : List (α × β))
    (h : k' ≠ k) : dictLookup k' (dictInsert k v l) = dictLookup k' l := by
  induction l with
  | nil => simp [dictInsert, dictLookup, h]
  | cons p rest ih =>
    by_cases hk : k = p.1
    · subst hk
      simp [dictInsert, dictLookup, h]
    · by_cases hk' : k' = p.1
      · simp [dictInsert, dictLookup, hk, hk']
      · simp [dictInsert, dictLookup, hk, hk', ih]

theorem mem_keys_dictInsert [DecidableEq α] (k x : α) (v : β) (l : List (α × β)) :
    x ∈ (dictInsert k v l).map Prod.fst ↔ x = k ∨ x ∈ l.map Prod.fst := by
  induction l with
  | nil => simp [dictInsert]
  | cons p rest ih =>
    by_cases h : k = p.1
    · subst h
      simp [dictInsert]
    · simp only [dictInsert, if_neg h, List.map_cons, List.mem_cons, ih]
      tauto

theorem nodup_keys_dictInsert [DecidableEq α] (k : α) (v : β) (l : List (α × β))
    (h : (l.map Prod.fst).Nodup) : ((dictInsert k v l).map Prod.fst).Nodup := by
  induction l with
  | nil => simp [dictInsert]
  | cons p rest ih =>
    simp only [List.map_cons, List.nodup_cons] at h
    by_cases hk : k = p.1
    · subst hk
      simpa [dictInsert] using h
    · simp only [dictInsert, if_neg hk, List.map_cons, List.nodup_cons]
      constructor
      · rw [mem_keys_dictInsert]
        rintro (rfl | hx)
        · exact hk rfl
        · exact h.1 hx
      · exact ih h.2

theorem length_dictInsert_mem [DecidableEq α] (k : α) (v : β) (l : List (α × β))
    (h : k ∈ l.map Prod.fst) : (dictInsert k v l).length = l.length := by
  induction l with
  | nil => simp at h
  | cons p rest ih =>
    by_cases hk : k = p.1
    · simp [dictInsert, hk]
    · simp only [List.map_cons, List.mem_cons] at h
      rcases h with h | h
    
      · exact absurd h hk
      · simp [dictInsert, hk, ih h]

theorem length_dictInsert_not_mem [DecidableEq α] (k : α) (v : β) (l : List (α × β))
    (h : k ∉ l.map Prod.fst) : (dictInsert k v l).length = l.length + 1 := by
  induction l with
  | nil => simp [dictInsert]
  | cons p rest ih =>
    simp only [List.map_cons, List.mem_cons] at h
    push_neg at h
    simp [dictInsert, h.1, ih h.2]

theorem dictLookup_isSome_iff_mem_keys [DecidableEq α] (k : α) (l : List (α × β)) :
    (dictLookup k l).isSome ↔ k ∈ l.map Prod.fst := by
  induction l with
  | nil => simp [dictLookup]
  | cons p rest ih =>
    by_cases h : k = p.1
    · simp [dictLookup, h]
    · simp [dictLookup, h, ih]

theorem length_eq_keys_length (st : SearchState) :
    st.found_transactions.length = (st.found_transactions.map Prod.fst).length := by
  simp

/-!
## C4 — nonce-gap precedence
-/

/-- C4: every queued entry with `nonce > next_nonce(address)` and some
nonce in `[next_nonce, nonce)` absent from the sender's observed
pending-nonce set is classified `nonce_gap`, regardless of the fee data
in its summary. -/
theorem nonce_gap_precedence (env : ClassifyEnv) (pending_nonces : Str → Finset Nat)
    (e : QueuedEntry) (h1 : get_next_nonce env e.addr < e.nonce)
    (h2 : ∃ k, get_next_nonce env e.addr ≤ k ∧ k < e.nonce ∧ k ∉ pending_nonces e.addr) :
    classifyEntry env pending_nonces e = Reason.nonce_gap := by
  obtain ⟨k, hk1, hk2, hk3⟩ := h2
  have hgap : is_nonce_gap env pending_nonces e = true := by
    unfold is_nonce_gap has_all_prior
    simp only [Bool.and_eq_true, decide_eq_true_eq, Bool.not_eq_true']
    refine ⟨h1, ?_⟩
    rw [List.all_eq_false]
    refine ⟨k, ?_, ?_⟩
    · rw [List.mem_range'_1]
      omega
    · simpa using hk3
  unfold classifyEntry
  rw [hgap]
  simp

/-- C4 witness: an entry with nonce `5`, next nonce `3` and pending set
`{3}` (missing `4`) classifies as `nonce_gap` even though its summary
carries a below-floor legacy gas price. -/
theorem nonce_gap_precedence_witness :
    get_next_nonce ⟨fun _ => some 3, some 20, 10 ^ 9⟩ ['0','x','0','1'] < 5 ∧
    classifyEntry ⟨fun _ => some 3, some 20, 10 ^ 9⟩
      (fun a => if a = ['0','x','0','1'] then ({3} : Finset Nat) else ∅)
      ⟨['0','x','0','1'], 5, ['g','a','s','P','r','i','c','e',' ','=',' ','1']⟩ =
      Reason.nonce_gap :=
  ⟨by decide, nonce_gap_precedence _ _ _ (by decide) ⟨4, by decide, by decide, by decide⟩⟩

/-!
## C2 — pricing fallback chain
-/

theorem classifyEntry_not_gap (env : ClassifyEnv) (pending_nonces : Str → Finset Nat)
    (e : QueuedEntry) (hng : is_nonce_gap env pending_nonces e = false) :
    classifyEntry env pending_nonces e =
      match parse_int_from_patterns e.summary inspectGaspriceKeys with
      | some gp =>
        if (gp : Int) < max env.wei_floor 0 then Reason.below_floor else Reason.unknown
      | none =>
        match parse_int_from_patterns e.summary inspectFeeKeys with
        | some fc =>
          if fc < get_pending_basefee_wei env then Reason.under_basefee else Reason.unknown
        | none => Reason.unknown := by
  unfold classifyEntry
  rw [hng]
  simp

/-- C2 (amended): for a queued entry with no nonce gap, a found legacy
gas price below the floor gives `below_floor`, and a found gas price not
below the floor gives `unknown` (blocking the fee-cap rule); only when no
legacy gas price was found does a found fee cap below the current pending
base fee give `under_basefee` (and not below it, `unknown`); with neither
field found the reason is `unknown`. -/
theorem pricing_fallback_chain (env : ClassifyEnv) (pending_nonces : Str → Finset Nat)
    (e : QueuedEntry) (hng : is_nonce_gap env pending_nonces e = false) :
    (∀ gp, parse_int_from_patterns e.summary inspectGaspriceKeys = some gp →
      ((gp : Int) < max env.wei_floor 0 →
        classifyEntry env pending_nonces e = Reason.below_floor) ∧
      (¬ (gp : Int) < max env.wei_floor 0 →
        classifyEntry env pending_nonces e = Reason.unknown)) ∧
    (parse_int_from_patterns e.summary inspectGaspriceKeys = none →
      ∀ fc, parse_int_from_patterns e.summary inspectFeeKeys = some fc →
        (fc < get_pending_basefee_wei env →
          classifyEntry env pending_nonces e = Reason.under_basefee) ∧
        (¬ fc < get_pending_basefee_wei env →
          classifyEntry env pending_nonces e = Reason.unknown)) ∧
    (parse_int_from_patterns e.summary inspectGaspriceKeys = none →
      parse_int_from_patterns e.summary inspectFeeKeys = none →
      classifyEntry env pending_nonces e = Reason.unknown) := by
  have hbody := classifyEntry_not_gap env pending_nonces e hng
  refine ⟨?_, ?_, ?_⟩
  · intro gp hgp
    rw [hbody, hgp]
    constructor
    · intro h
      simp [h]
    · intro h
      simp [h]
  · intro hnone fc hfc
    rw [hbody, hnone, hfc]
    constructor
    · intro h
      simp [h]
    · intro h
      simp [h]
  · intro hnone hfnone
    rw [hbody, hnone, hfnone]

/-- C2 witness: with no nonce gap, no legacy gas price in the summary, a
fee cap of `10` and a current base fee of `20`, the entry classifies as
`under_basefee` (the claim's particular instance). -/
theorem pricing_fallback_chain_witness :
    is_nonce_gap ⟨fun _ => some 0, some 20, 10 ^ 9⟩ (fun _ => ∅)
      ⟨exAddr1, 0, exSummaryFee⟩ = false ∧
    classifyEntry ⟨fun _ => some 0, some 20, 10 ^ 9⟩ (fun _ => ∅)
      ⟨exAddr1, 0, exSummaryFee⟩ = Reason.under_basefee :=
  ⟨by decide,
    (((pricing_fallback_chain ⟨fun _ => some 0, some 20, 10 ^ 9⟩ (fun _ => ∅)
      ⟨exAddr1, 0, exSummaryFee⟩ (by decide)).2.1 (by decide) 10 (by decide)).1 (by decide))⟩

/-- C2 counterexample: an entry with no nonce gap whose summary carries
both a legacy gas price (`100`, not below the floor of `50` wei) and a
fee cap (`10`, below the base fee of `20`).  The claim's chain ("…
otherwise, if a fee cap is found and it is below the current base fee →
`under_basefee`") demands `under_basefee`; the code answers `unknown`,
because a found gas price short-circuits the fee-cap rule via `elif`. -/
theorem pricing_fallback_chain_cex :
    is_nonce_gap ⟨fun _ => some 0, some 20, 50⟩ (fun _ => ∅)
      ⟨exAddr1, 0, exSummaryBoth⟩ = false ∧
    parse_int_from_patterns exSummaryBoth inspectFeeKeys = some 10 ∧
    (10 : Nat) < get_pending_basefee_wei ⟨fun _ => some 0, some 20, 50⟩ ∧
    parse_int_from_patterns exSummaryBoth inspectGaspriceKeys = some 100 ∧
    ¬ ((100 : Int) < max (50 : Int) 0) ∧
    classifyEntry ⟨fun _ => some 0, some 20, 50⟩ (fun _ => ∅)
      ⟨exAddr1, 0, exSummaryBoth⟩ = Reason.unknown ∧
    Reason.unknown ≠ Reason.under_basefee := by
  decide

/-!
## C3 — classification-time lookup failures
-/

theorem classifyEntry_gap (env : ClassifyEnv) (pending_nonces : Str → Finset Nat)
    (e : QueuedEntry) (h : is_nonce_gap env pending_nonces e = true) :
    classifyEntry env pending_nonces e = Reason.nonce_gap := by
  unfold classifyEntry
  rw [h]
  simp

theorem classifyEntry_env_congr (env env' : ClassifyEnv) (pending_nonces : Str → Finset Nat)
    (e : QueuedEntry) (hnn : get_next_nonce env e.addr = get_next_nonce env' e.addr)
    (hw : env.wei_floor = env'.wei_floor) (hb : env.basefee = env'.basefee) :
    classifyEntry env pending_nonces e = classifyEntry env' pending_nonces e := by
  unfold classifyEntry is_nonce_gap has_all_prior get_pending_basefee_wei
  rw [hnn, hw, hb]

/-- C3 (amended): classification-time lookup failures never abort the
classifier (classification is total by construction); a failed base-fee
query makes the fetched base fee `0`, so the entry is never classified
`under_basefee` — but a failed next-nonce query substitutes `0` for the
sender's next nonce and classification proceeds with that value, so such
an entry can still be classified `nonce_gap` or `below_floor` rather than
`unknown`. -/
theorem classify_lookup_failure (env : ClassifyEnv) (pending_nonces : Str → Finset Nat)
    (e : QueuedEntry) (hbf : env.basefee = none) :
    classifyEntry env pending_nonces e ≠ Reason.under_basefee ∧
    (env.nextNonce e.addr = none →
      classifyEntry env pending_nonces e =
        classifyEntry ⟨fun a => if a = e.addr then some 0 else env.nextNonce a,
          env.basefee, env.wei_floor⟩ pending_nonces e) := by
  constructor
  · have h0 : get_pending_basefee_wei env = 0 := by
      simp [get_pending_basefee_wei, hbf]
    cases hng : is_nonce_gap env pending_nonces e with
    | true => simp [classifyEntry_gap env pending_nonces e hng]
    | false =>
      rw [classifyEntry_not_gap env pending_nonces e hng]
      cases hg : parse_int_from_patterns e.summary inspectGaspriceKeys with
      | some gp =>
        by_cases hlt : (gp : Int) < max env.wei_floor 0 <;> simp [hlt]
      | none =>
        cases hf : parse_int_from_patterns e.summary inspectFeeKeys with
        | some fc => simp [h0]
        | none => simp
  · intro hnn
    apply classifyEntry_env_congr
    · simp [get_next_nonce, hnn]
    · rfl
    · rfl

/-- C3 witness: with a failed base-fee query, an entry whose summary
carries a fee cap is still not classified `under_basefee`, and the
classifier does not abort. -/
theorem classify_lookup_failure_witness :
    (⟨fun _ => none, none, 10 ^ 9⟩ : ClassifyEnv).basefee = none ∧
    classifyEntry ⟨fun _ => none, none, 10 ^ 9⟩ (fun _ => ∅)
      ⟨exAddr1, 0, exSummaryFee⟩ ≠ Reason.under_basefee :=
  ⟨rfl, (classify_lookup_failure ⟨fun _ => none, none, 10 ^ 9⟩ (fun _ => ∅)
    ⟨exAddr1, 0, exSummaryFee⟩ rfl).1⟩

/-- C3 counterexample: for a queued entry at nonce 5 whose sender's
next-nonce query fails (and with an empty observed pending set), the code
substitutes next nonce `0` and classifies the entry `nonce_gap`, where
the claim demands `unknown`. -/
theorem classify_lookup_failure_cex :
    (⟨fun _ => none, none, 10 ^ 9⟩ : ClassifyEnv).nextNonce exAddr1 = none ∧
    classifyEntry ⟨fun _ => none, none, 10 ^ 9⟩ (fun _ => ∅) ⟨exAddr1, 5, []⟩ =
      Reason.nonce_gap ∧
    Reason.nonce_gap ≠ Reason.unknown := by
  decide

/-!
## C8 — poll budgets
-/

theorem statusLoop_polls (oracle : Nat → Option (Nat × Nat)) :
    ∀ (k : Nat) (st : StatusStats), (statusLoop oracle k st).polls = st.polls + k := by
  intro k
  induction k with
  | zero => intro st; simp [statusLoop]
  | succ n ih =>
    intro st
    simp only [statusLoop]
    cases oracle (st.polls + 1) with
    | none =>
      rw [ih]
      show st.polls + 1 + n = st.polls + (n + 1)
      omega
    | some pq =>
      rw [ih]
      show st.polls + 1 + n = st.polls + (n + 1)
      omega

theorem inspectLoop_polls (oracle : Nat → Option ProbeSnapshot) :
    ∀ (k : Nat) (st : ProbeState), (inspectLoop oracle k st).inspect_polls = st.inspect_polls + k := by
  intro k
  induction k with
  | zero => intro st; simp [inspectLoop]
  | succ n ih =>
    intro st
    simp only [inspectLoop]
    cases oracle (st.inspect_polls + 1) with
    | none =>
      rw [ih]
      show st.inspect_polls + 1 + n = st.inspect_polls + (n + 1)
      omega
    | some snap =>
      rw [ih]
      show st.inspect_polls + 1 + n = st.inspect_polls + (n + 1)
      omega

/-- C8 (amended): the sampler performs exactly `max(1, S)` status polls
and exactly `max(1, H)` inspect polls — for budgets `≥ 1`, exactly `S`
and `H` — and the counts do not depend on the oracle's answers, so a
failed poll still consumes one round of its budget. -/
theorem poll_budget_exact (samples hits : Nat) (so : Nat → Option (Nat × Nat))
    (io : Nat → Option ProbeSnapshot) :
    (runStatusSampling samples so).polls = max 1 samples ∧
    (runInspect hits io).inspect_polls = max 1 hits := by
  constructor
  · simpa [runStatusSampling] using statusLoop_polls so (max 1 samples) ⟨0, 0, 0⟩
  · simpa [runInspect, initProbeState] using inspectLoop_polls io (max 1 hits) initProbeState

/-- C8 counterexample: with a configured status budget `S = 0` the code
still performs one status poll (`for _ in range(max(1, SAMPLES))`), and
likewise one inspect poll for `H = 0`, where the claim demands exactly
zero. -/
theorem poll_budget_cex :
    (runStatusSampling 0 (fun _ => none)).polls = 1 ∧
    (runInspect 0 (fun _ => none)).inspect_polls = 1 ∧ (1 : Nat) ≠ 0 := by
  refine ⟨?_, ?_, by decide⟩
  · simpa [runStatusSampling] using statusLoop_polls (fun _ => none) 1 ⟨0, 0, 0⟩
  · simpa [runInspect, initProbeState] using inspectLoop_polls (fun _ => none) 1 initProbeState

/-!
## C9 — consolidated table ordering
-/

theorem mem_insertSorted {α : Type} {le : α → α → Bool} {a x : α} {l : List α} :
    x ∈ insertSorted le a l ↔ x = a ∨ x ∈ l := by
  induction l with
  | nil => simp [insertSorted]
  | cons b rest ih =>
    simp only [insertSorted]
    by_cases h : le a b = true
    · rw [if_pos h]
      simp only [List.mem_cons]
    · rw [if_neg h]
      simp only [List.mem_cons, ih]
      tauto

theorem pairwise_insertSorted {α : Type} {le : α → α → Bool}
    (htot : ∀ a b, le a b = false → le b a = true)
    (htrans : ∀ a b c, le a b = true → le b c = true → le a c = true)
    {a : α} {l : List α} (hl : l.Pairwise (fun x y => le x y = true)) :
    (insertSorted le a l).Pairwise (fun x y => le x y = true) := by
  induction l with
  | nil => simp [insertSorted]
  | cons b rest ih =>
    rcases List.pairwise_cons.mp hl with ⟨hb, hrest⟩
    simp only [insertSorted]
    by_cases h : le a b = true
    · rw [if_pos h]
      refine List.pairwise_cons.mpr ⟨?_, hl⟩
      intro x hx
      rcases List.mem_cons.mp hx with rfl | hx
      · exact h
      · exact htrans a b x h (hb x hx)
    · rw [if_neg h]
      refine List.pairwise_cons.mpr ⟨?_, ih hrest⟩
      intro x hx
      rcases mem_insertSorted.mp hx with heq | hx
      · rw [heq]
        exact htot a b (Bool.eq_false_iff.mpr h)
      · exact hb x hx

theorem pairwise_pySorted {α : Type} {le : α → α → Bool}
    (htot : ∀ a b, le a b = false → le b a = true)
    (htrans : ∀ a b c, le a b = true → le b c = true → le a c = true)
    (l : List α) : (pySorted le l).Pairwise (fun x y => le x y = true) := by
  induction l with
  | nil => simp [pySorted]
  | cons a rest ih =>
    have hstep : pySorted le (a :: rest) = insertSorted le a (pySorted le rest) := rfl
    rw [hstep]
    exact pairwise_insertSorted htot htrans ih

theorem rowGE_total (r s : ConsolidatedRow) (h : rowGE r s = false) : rowGE s r = true := by
  unfold rowGE at h ⊢
  simp only [decide_eq_false_iff_not, decide_eq_true_eq] at h ⊢
  omega

theorem rowGE_trans (a b c : ConsolidatedRow) (h1 : rowGE a b = true)
    (h2 : rowGE b c = true) : rowGE a c = true := by
  unfold rowGE at h1 h2 ⊢
  simp only [decide_eq_true_eq] at h1 h2 ⊢
  omega

/-- C9: the consolidated per-sender table is truncated to the configured
row limit and is sorted by `(queued_count, pending_count)` in descending
lexicographic order: for every two rows, the earlier one has the larger
`queued_count`, or an equal `queued_count` and a `pending_count` at least
as large. -/
theorem consolidated_table_sorted (rows : List ConsolidatedRow) (limit : Nat) :
    (consolidatedTable rows limit).length ≤ limit ∧
    (consolidatedTable rows limit).Pairwise (fun r s =>
      s.queued_count < r.queued_count ∨
        (s.queued_count = r.queued_count ∧ s.pending_count ≤ r.pending_count)) := by
  constructor
  · simp only [consolidatedTable, List.length_take]
    omega
  · have hp' := pairwise_pySorted rowGE_total rowGE_trans rows
    have hsub : (consolidatedTable rows limit).Sublist (pySorted rowGE rows) :=
      List.take_sublist limit (pySorted rowGE rows)
    have htake := List.Pairwise.sublist hsub hp'
    refine htake.imp ?_
    intro r s hrs
    simpa [rowGE] using hrs


/-!
## C1 — algebraic properties of ingestion
-/

theorem harvestBlock_eq (a : Str) (ns : List Str) (pn : Str → Finset Nat) :
    harvestBlock a ns pn = fun x =>
      if x = a then pn a ∪ (ns.filterMap parse_nonce).toFinset else pn x := by
  induction ns generalizing pn with
  | nil =>
    funext x
    by_cases hxa : x = a <;> simp [harvestBlock, hxa]
  | cons nstr rest ih =>
    cases hp : parse_nonce nstr with
    | none =>
      have hstep : harvestBlock a (nstr :: rest) pn = harvestBlock a rest pn := by
        simp [harvestBlock, hp]
      rw [hstep, ih]
      funext x
      by_cases hxa : x = a <;> simp [hxa, List.filterMap_cons, hp]
    | some n =>
      have hstep : harvestBlock a (nstr :: rest) pn =
          harvestBlock a rest (fun y => if y = a then insert n (pn y) else pn y) := by
        simp [harvestBlock, hp]
      rw [hstep, ih]
      funext x
      by_cases hxa : x = a
      · simp [hxa, List.filterMap_cons, hp, Finset.insert_union, Finset.union_insert]
      · simp [hxa]

theorem mem_harvestBlock {a : Str} {ns : List Str} {pn : Str → Finset Nat}
    {x : Str} {m : Nat} :
    m ∈ harvestBlock a ns pn x ↔
      m ∈ pn x ∨ (x = a ∧ m ∈ ns.filterMap parse_nonce) := by
  rw [harvestBlock_eq]
  by_cases hxa : x = a
  · simp [hxa]
  · simp [hxa]

theorem pair_filterMap_mem (a : Str) (ns : List Str) (x : Str) (m : Nat) :
    ((x, m) ∈ ns.filterMap fun nstr => (parse_nonce nstr).map fun n => (a, n)) ↔
      (x = a ∧ m ∈ ns.filterMap parse_nonce) := by
  simp only [List.mem_filterMap, Option.map_eq_some', Prod.mk.injEq]
  constructor
  · rintro ⟨nstr, hns, n, hpn, hax, hnm⟩
    exact ⟨hax.symm, nstr, hns, hnm ▸ hpn⟩
  · rintro ⟨rfl, nstr, hns, hpn⟩
    exact ⟨nstr, hns, m, hpn, rfl, rfl⟩

theorem mem_harvestPending {blocks : List (Str × Option (List Str))}
    {pn : Str → Finset Nat} {x : Str} {m : Nat} :
    m ∈ harvestPending blocks pn x ↔
      m ∈ pn x ∨ (x, m) ∈ snapPendingPairs ⟨some blocks, none⟩ := by
  induction blocks generalizing pn with
  | nil => simp [harvestPending, snapPendingPairs]
  | cons b rest ih =>
    obtain ⟨addr, v⟩ := b
    cases v with
    | none =>
      have hstep : harvestPending ((addr, none) :: rest) pn = harvestPending rest pn := rfl
      rw [hstep, ih]
      simp [snapPendingPairs, List.flatMap_cons]
    | some ns =>
      have hstep : harvestPending ((addr, some ns) :: rest) pn =
          harvestPending rest (harvestBlock (pyLower addr) ns pn) := rfl
      rw [hstep, ih]
      simp only [snapPendingPairs, List.flatMap_cons, List.mem_append, mem_harvestBlock,
        pair_filterMap_mem]
      tauto

theorem mem_ingestProbe_pending (snap : ProbeSnapshot) (st : ProbeState) (x : Str) (m : Nat) :
    m ∈ (ingestProbe snap st).pending_nonces x ↔
      m ∈ st.pending_nonces x ∨ (x, m) ∈ snapPendingPairs snap := by
  cases hsp : snap.pending with
  | none => simp [ingestProbe, hsp, snapPendingPairs]
  | some blocks =>
    have hpairs : snapPendingPairs snap = snapPendingPairs ⟨some blocks, none⟩ := by
      simp [snapPendingPairs, hsp]
    rw [hpairs]
    simp only [ingestProbe, hsp]
    exact mem_harvestPending

theorem mem_foldIngest_pending (snaps : List ProbeSnapshot) :
    ∀ (st : ProbeState) (x : Str) (m : Nat),
      m ∈ (snaps.foldl (fun st snap => ingestProbe snap st) st).pending_nonces x ↔
        m ∈ st.pending_nonces x ∨ ∃ s ∈ snaps, (x, m) ∈ snapPendingPairs s := by
  induction snaps with
  | nil => intro st x m; simp
  | cons snap rest ih =>
    intro st x m
    rw [List.foldl_cons, ih, mem_ingestProbe_pending]
    simp only [List.mem_cons]
    constructor
    · rintro ((h | h) | ⟨s, hs, h⟩)
      · exact Or.inl h
      · exact Or.inr ⟨snap, Or.inl rfl, h⟩
      · exact Or.inr ⟨s, Or.inr hs, h⟩
    · rintro (h | ⟨s, (rfl | hs), h⟩)
      · exact Or.inl (Or.inl h)
      · exact Or.inl (Or.inr h)
      · exact Or.inr ⟨s, hs, h⟩

theorem mem_runIngest_pending (snaps : List ProbeSnapshot) (x : Str) (m : Nat) :
    m ∈ (runIngest snaps).pending_nonces x ↔ ∃ s ∈ snaps, (x, m) ∈ snapPendingPairs s := by
  rw [runIngest, mem_foldIngest_pending]
  simp [initProbeState]

theorem collectBlock_eq (a : Str) (es : List (Str × Str)) (acc : List QueuedEntry) :
    collectBlock a es acc =
      acc ++ es.filterMap (fun p => (parse_nonce p.1).map fun n => QueuedEntry.mk a n p.2) := by
  induction es generalizing acc with
  | nil => simp [collectBlock]
  | cons p rest ih =>
    obtain ⟨nstr, summary⟩ := p
    cases hp : parse_nonce nstr with
    | none =>
      have hstep : collectBlock a ((nstr, summary) :: rest) acc = collectBlock a rest acc := by
        simp [collectBlock, hp]
      rw [hstep, ih]
      simp [List.filterMap_cons, hp]
    | some n =>
      have hstep : collectBlock a ((nstr, summary) :: rest) acc =
          collectBlock a rest (acc ++ [⟨a, n, summary⟩]) := by
        simp [collectBlock, hp]
      rw [hstep, ih]
      simp [List.filterMap_cons, hp]

theorem collectQueued_eq (blocks : List (Str × Option (List (Str × Str))))
    (acc : List QueuedEntry) :
    collectQueued blocks acc = acc ++ snapQueuedEntries ⟨none, some blocks⟩ := by
  induction blocks generalizing acc with
  | nil => simp [collectQueued, snapQueuedEntries]
  | cons b rest ih =>
    obtain ⟨addr, v⟩ := b
    cases v with
    | none =>
      have hstep : collectQueued ((addr, none) :: rest) acc = collectQueued rest acc := rfl
      rw [hstep, ih]
      simp [snapQueuedEntries, List.flatMap_cons]
    | some entries =>
      have hstep : collectQueued ((addr, some entries) :: rest) acc =
          collectQueued rest (collectBlock (pyLower addr) entries acc) := rfl
      rw [hstep, ih, collectBlock_eq]
      simp [snapQueuedEntries, List.flatMap_cons]

theorem ingestProbe_queued (snap : ProbeSnapshot) (st : ProbeState) :
    (ingestProbe snap st).queued_raw = st.queued_raw ++ snapQueuedEntries snap := by
  cases hsq : snap.queued with
  | none => simp [ingestProbe, hsq, snapQueuedEntries]
  | some blocks =>
    have hents : snapQueuedEntries snap = snapQueuedEntries ⟨none, some blocks⟩ := by
      simp [snapQueuedEntries, hsq]
    rw [hents]
    simp only [ingestProbe, hsq]
    exact collectQueued_eq blocks st.queued_raw

theorem foldIngest_queued (snaps : List ProbeSnapshot) :
    ∀ (st : ProbeState),
      (snaps.foldl (fun st snap => ingestProbe snap st) st).queued_raw =
        st.queued_raw ++ snaps.flatMap snapQueuedEntries := by
  induction snaps with
  | nil => intro st; simp
  | cons snap rest ih =>
    intro st
    rw [List.foldl_cons, ih, ingestProbe_queued]
    simp [List.flatMap_cons]

theorem mem_queuedSet_runIngest (snaps : List ProbeSnapshot) (e : QueuedEntry) :
    e ∈ queuedSet (runIngest snaps) ↔ ∃ s ∈ snaps, e ∈ snapQueuedEntries s := by
  rw [queuedSet, runIngest]
  rw [List.mem_toFinset, foldIngest_queued]
  simp [initProbeState, List.mem_flatMap]

/-- C1 (amended): on the probe side, ingestion is a join-semilattice
merge: the final `pending_nonces` map and the final deduplicated
`queued_entries` set are invariant under any permutation of the ingested
snapshots and under ingesting the same snapshot twice.  (On the search
side the claim fails — see the counterexample: `found_by_hash` is
last-writer-wins and therefore order-dependent, and `found_by_address`
appends one record per observation and therefore grows under duplicate
ingestion.) -/
theorem ingest_semilattice_components (l₁ l₂ : List ProbeSnapshot) (hperm : l₁.Perm l₂) :
    ((runIngest l₁).pending_nonces = (runIngest l₂).pending_nonces ∧
      queuedSet (runIngest l₁) = queuedSet (runIngest l₂)) ∧
    ∀ (s : ProbeSnapshot) (l : List ProbeSnapshot),
      (runIngest (s :: s :: l)).pending_nonces = (runIngest (s :: l)).pending_nonces ∧
      queuedSet (runIngest (s :: s :: l)) = queuedSet (runIngest (s :: l)) := by
  constructor
  · constructor
    · funext x
      apply Finset.ext
      intro m
      rw [mem_runIngest_pending, mem_runIngest_pending]
      constructor
      · rintro ⟨s, hs, h⟩
        exact ⟨s, hperm.mem_iff.mp hs, h⟩
      · rintro ⟨s, hs, h⟩
        exact ⟨s, hperm.mem_iff.mpr hs, h⟩
    · apply Finset.ext
      intro e
      rw [mem_queuedSet_runIngest, mem_queuedSet_runIngest]
      constructor
      · rintro ⟨s, hs, h⟩
        exact ⟨s, hperm.mem_iff.mp hs, h⟩
      · rintro ⟨s, hs, h⟩
        exact ⟨s, hperm.mem_iff.mpr hs, h⟩
  · intro s l
    constructor
    · funext x
      apply Finset.ext
      intro m
      rw [mem_runIngest_pending, mem_runIngest_pending]
      simp only [List.mem_cons]
      constructor
      · rintro ⟨t, hmem, h⟩
        refine ⟨t, ?_, h⟩
        rcases hmem with h1 | h1 | h1
        · exact Or.inl h1
        · exact Or.inl h1
        · exact Or.inr h1
      · rintro ⟨t, hmem, h⟩
        refine ⟨t, ?_, h⟩
        rcases hmem with h1 | h1
        · exact Or.inl h1
        · exact Or.inr (Or.inr h1)
    · apply Finset.ext
      intro e
      rw [mem_queuedSet_runIngest, mem_queuedSet_runIngest]
      simp only [List.mem_cons]
      constructor
      · rintro ⟨t, hmem, h⟩
        refine ⟨t, ?_, h⟩
        rcases hmem with h1 | h1 | h1
        · exact Or.inl h1
        · exact Or.inl h1
        · exact Or.inr h1
      · rintro ⟨t, hmem, h⟩
        refine ⟨t, ?_, h⟩
        rcases hmem with h1 | h1
        · exact Or.inl h1
        · exact Or.inr (Or.inr h1)

/-- C1 witness: the two-snapshot ingestion orders produce the same
pending-nonce map and the same deduplicated queued-entry set. -/
theorem ingest_semilattice_components_witness :
    ([exProbeSnapA, exProbeSnapB].Perm [exProbeSnapB, exProbeSnapA]) ∧
    (runIngest [exProbeSnapA, exProbeSnapB]).pending_nonces =
      (runIngest [exProbeSnapB, exProbeSnapA]).pending_nonces ∧
    queuedSet (runIngest [exProbeSnapA, exProbeSnapB]) =
      queuedSet (runIngest [exProbeSnapB, exProbeSnapA]) :=
  ⟨by decide,
    (ingest_semilattice_components _ _ (by decide)).1.1,
    (ingest_semilattice_components _ _ (by decide)).1.2⟩

/-- C1 counterexample: the same two snapshots, ingested in the two
orders, leave different `found_by_hash` records for the target hash
`0xaa` (hit 1 pending vs hit 2 queued as the last writer), so ingestion
is not commutative on `found_by_hash`. -/
theorem ingest_order_dependent_cex :
    dictLookup exHashA
        (foldHits ⟨[exHashA], []⟩ 1 [some exSnapPA, some exSnapQA]
          initSearchState).found_transactions ≠
      dictLookup exHashA
        (foldHits ⟨[exHashA], []⟩ 1 [some exSnapQA, some exSnapPA]
          initSearchState).found_transactions := by
  decide

/-!
## Search-loop bookkeeping and invariants
-/

theorem applyMatch_ft (targets : SearchTargets) (txh : Str) (info : TxInfo)
    (st : SearchState) :
    (applyMatch targets txh info st).found_transactions =
      if txh ∈ targets.hashes then dictInsert txh info st.found_transactions
      else st.found_transactions := by
  unfold applyMatch
  by_cases h1 : txh ∈ targets.hashes <;> by_cases h2 : info.address ∈ targets.addresses <;>
    simp [h1, h2]

theorem applyMatch_total (targets : SearchTargets) (txh : Str) (info : TxInfo)
    (st : SearchState) :
    (applyMatch targets txh info st).total_hits = st.total_hits := by
  unfold applyMatch
  by_cases h1 : txh ∈ targets.hashes <;> by_cases h2 : info.address ∈ targets.addresses <;>
    simp [h1, h2]

/-- The two invariants of `found_transactions` along any run: its keys are
duplicate-free (it is a dict) and every key is a target hash (only target
hashes are ever written, lines 223 / 254). -/
def SearchInv (targets : SearchTargets) (st : SearchState) : Prop :=
  (st.found_transactions.map Prod.fst).Nodup ∧
    ∀ k ∈ st.found_transactions.map Prod.fst, k ∈ targets.hashes

theorem searchInv_init (targets : SearchTargets) : SearchInv targets initSearchState := by
  constructor <;> simp [initSearchState]

theorem searchInv_applyMatch (targets : SearchTargets) (txh : Str) (info : TxInfo)
    (st : SearchState) (h : SearchInv targets st) :
    SearchInv targets (applyMatch targets txh info st) := by
  rcases h with ⟨hnd, hsub⟩
  constructor
  · rw [applyMatch_ft]
    by_cases h1 : txh ∈ targets.hashes
    · rw [if_pos h1]
      exact nodup_keys_dictInsert txh info _ hnd
    · rw [if_neg h1]
      exact hnd
  · rw [applyMatch_ft]
    by_cases h1 : txh ∈ targets.hashes
    · rw [if_pos h1]
      intro k hk
      rcases (mem_keys_dictInsert txh k info _).mp hk with rfl | hk
      · exact h1
      · exact hsub k hk
    · rw [if_neg h1]
      exact hsub

theorem processEntry_some (targets : SearchTargets) (hit : Nat) (status addrN nstr : Str)
    (v : Option TxData) (st st' : SearchState)
    (h : processEntry targets hit status addrN nstr v st = some st') :
    st'.total_hits = st.total_hits ∧ (SearchInv targets st → SearchInv targets st') := by
  unfold processEntry at h
  cases v with
  | none =>
    cases h
    exact ⟨rfl, id⟩
  | some d =>
    cases hp : parse_nonce nstr with
    | none => rw [hp] at h; cases h
    | some n =>
      rw [hp] at h
      cases h
      exact ⟨applyMatch_total _ _ _ _, searchInv_applyMatch _ _ _ _⟩

theorem processEntries_spec (targets : SearchTargets) (hit : Nat) (status addrN : Str) :
    ∀ (es : List (Str × Option TxData)) (st : SearchState),
      (processEntries targets hit status addrN es st).1.total_hits = st.total_hits ∧
      (SearchInv targets st →
        SearchInv targets (processEntries targets hit status addrN es st).1) := by
  intro es
  induction es with
  | nil => intro st; exact ⟨rfl, id⟩
  | cons p rest ih =>
    intro st
    obtain ⟨nstr, v⟩ := p
    simp only [processEntries]
    cases hpe : processEntry targets hit status addrN nstr v st with
    | none => exact ⟨rfl, id⟩
    | some st2 =>
      obtain ⟨ht, hi⟩ := processEntry_some targets hit status addrN nstr v st st2 hpe
      obtain ⟨ht', hi'⟩ := ih st2
      exact ⟨ht'.trans ht, fun h => hi' (hi h)⟩

theorem processBlocks_spec (targets : SearchTargets) (hit : Nat) (status : Str) :
    ∀ (blocks : List (Str × Option (List (Str × Option TxData)))) (st : SearchState),
      (processBlocks targets hit status blocks st).1.total_hits = st.total_hits ∧
      (SearchInv targets st →
        SearchInv targets (processBlocks targets hit status blocks st).1) := by
  intro blocks
  induction blocks with
  | nil => intro st; exact ⟨rfl, id⟩
  | cons b rest ih =>
    intro st
    obtain ⟨addr, nmap⟩ := b
    cases nmap with
    | none => exact ih st
    | some entries =>
      simp only [processBlocks]
      obtain ⟨ht, hi⟩ :=
        processEntries_spec targets hit status (normalize_address addr) entries st
      cases hes : processEntries targets hit status (normalize_address addr) entries st with
      | mk st2 ok =>
        rw [hes] at ht hi
        cases ok with
        | true =>
          obtain ⟨ht', hi'⟩ := ih st2
          exact ⟨ht'.trans ht, fun h => hi' (hi h)⟩
        | false => exact ⟨ht, hi⟩

theorem processSnapshot_spec (targets : SearchTargets) (hit : Nat) (snap : SearchSnapshot)
    (st : SearchState) :
    (processSnapshot targets hit snap st).1.total_hits = st.total_hits ∧
    (SearchInv targets st →
      SearchInv targets (processSnapshot targets hit snap st).1) := by
  unfold processSnapshot
  have hpend :
      ∀ st0 : SearchState,
        (match snap.pending with
          | none => (st0, true)
          | some blocks =>
            processBlocks targets hit pendingStr blocks
              { st0 with pending_searches := st0.pending_searches + 1 }).1.total_hits =
            st0.total_hits ∧
          (SearchInv targets st0 →
            SearchInv targets
              (match snap.pending with
                | none => (st0, true)
                | some blocks =>
                  processBlocks targets hit pendingStr blocks
                    { st0 with pending_searches := st0.pending_searches + 1 }).1) := by
    intro st0
    cases snap.pending with
    | none => exact ⟨rfl, id⟩
    | some blocks =>
      have h := processBlocks_spec targets hit pendingStr blocks
        { st0 with pending_searches := st0.pending_searches + 1 }
      refine ⟨h.1, fun hinv => h.2 ?_⟩
      exact hinv
  obtain ⟨hpt, hpi⟩ := hpend st
  cases hps : (match snap.pending with
    | none => (st, true)
    | some blocks =>
      processBlocks targets hit pendingStr blocks
        { st with pending_searches := st.pending_searches + 1 }) with
  | mk st1 ok =>
    rw [hps] at hpt hpi
    cases ok with
    | false => exact ⟨hpt, hpi⟩
    | true =>
      cases snap.queued with
      | none => exact ⟨hpt, hpi⟩
      | some blocks =>
        have h := processBlocks_spec targets hit queuedStr blocks
          { st1 with queued_searches := st1.queued_searches + 1 }
        exact ⟨h.1.trans hpt, fun hinv => h.2 (hpi hinv)⟩

theorem processHit_total (targets : SearchTargets) (n : Nat) (h : Option SearchSnapshot)
    (st : SearchState) : (processHit targets n h st).total_hits = st.total_hits + 1 := by
  cases h with
  | none => rfl
  | some snap =>
    show (match processSnapshot targets n snap
        { st with total_hits := st.total_hits + 1,
                  successful_hits := st.successful_hits + 1 } with
      | (st', true) => st'
      | (st', false) => { st' with failed_hits := st'.failed_hits + 1 }).total_hits =
      st.total_hits + 1
    have hs := (processSnapshot_spec targets n snap
      { st with total_hits := st.total_hits + 1, successful_hits := st.successful_hits + 1 }).1
    cases hps : processSnapshot targets n snap
      { st with total_hits := st.total_hits + 1, successful_hits := st.successful_hits + 1 } with
    | mk st1 ok =>
      rw [hps] at hs
      cases ok with
      | true => exact hs
      | false => exact hs

theorem searchInv_processHit (targets : SearchTargets) (n : Nat) (h : Option SearchSnapshot)
    (st : SearchState) (hinv : SearchInv targets st) :
    SearchInv targets (processHit targets n h st) := by
  cases h with
  | none => exact hinv
  | some snap =>
    show SearchInv targets
      (match processSnapshot targets n snap
          { st with total_hits := st.total_hits + 1,
                    successful_hits := st.successful_hits + 1 } with
        | (st', true) => st'
        | (st', false) => { st' with failed_hits := st'.failed_hits + 1 })
    have hinv1 : SearchInv targets
        { st with total_hits := st.total_hits + 1, successful_hits := st.successful_hits + 1 } :=
      hinv
    have hs := (processSnapshot_spec targets n snap
      { st with total_hits := st.total_hits + 1, successful_hits := st.successful_hits + 1 }).2 hinv1
    cases hps : processSnapshot targets n snap
      { st with total_hits := st.total_hits + 1, successful_hits := st.successful_hits + 1 } with
    | mk st1 ok =>
      rw [hps] at hs
      cases ok with
      | true => exact hs
      | false => exact hs

theorem toFinset_card_lt_of_not_nodup {l : List Str} (h : ¬ l.Nodup) :
    l.toFinset.card < l.length := by
  have hle : l.toFinset.card ≤ l.length := l.toFinset_card_le
  rcases Nat.lt_or_ge l.toFinset.card l.length with hlt | hge
  · exact hlt
  · exfalso
    have hd : l.toFinset.card = l.dedup.length := by
      rw [Finset.card_def, List.toFinset_val]
      exact Multiset.coe_card l.dedup
    have hdl : l.dedup = l := (List.dedup_sublist l).eq_of_length_le (by omega)
    exact h (hdl ▸ l.nodup_dedup)

/-- Under the run invariants and duplicate-free targets, the code's
early-exit test (`len(found_transactions) == len(target_hashes)`, guarded
by a non-empty target list) coincides with the spec's "every target hash
has a `found_by_hash` entry" condition. -/
theorem exitCond_eq_allFoundNow (targets : SearchTargets) (st : SearchState)
    (hnd : targets.hashes.Nodup) (hinv : SearchInv targets st) :
    exitCond targets st = allFoundNow targets st := by
  unfold exitCond allFoundNow
  rcases hinv with ⟨hnodk, hsub⟩
  by_cases hne : targets.hashes.isEmpty
  · simp [hne]
  · simp only [hne, Bool.not_false, Bool.true_and]
    have hlen : st.found_transactions.length =
        (st.found_transactions.map Prod.fst).length := by simp
    have hsubF : (st.found_transactions.map Prod.fst).toFinset ⊆ targets.hashes.toFinset := by
      intro k hk
      rw [List.mem_toFinset] at hk ⊢
      exact hsub k hk
    have hkc : (st.found_transactions.map Prod.fst).toFinset.card =
        (st.found_transactions.map Prod.fst).length :=
      List.toFinset_card_of_nodup hnodk
    have hhc : targets.hashes.toFinset.card = targets.hashes.length :=
      List.toFinset_card_of_nodup hnd
    have hiff : (st.found_transactions.length == targets.hashes.length) = true ↔
        (targets.hashes.all fun h => (dictLookup h st.found_transactions).isSome) = true := by
      rw [beq_iff_eq, List.all_eq_true]
      constructor
      · intro hleq h hh
        have hFeq : (st.found_transactions.map Prod.fst).toFinset = targets.hashes.toFinset := by
          apply Finset.eq_of_subset_of_card_le hsubF
          omega
        have : h ∈ st.found_transactions.map Prod.fst := by
          rw [← List.mem_toFinset, hFeq, List.mem_toFinset]
          exact hh
        have := (dictLookup_isSome_iff_mem_keys h st.found_transactions).mpr this
        simpa using this
      · intro hall
        have hsupF : targets.hashes.toFinset ⊆
            (st.found_transactions.map Prod.fst).toFinset := by
          intro h hh
          rw [List.mem_toFinset] at hh ⊢
          have := hall h hh
          exact (dictLookup_isSome_iff_mem_keys h st.found_transactions).mp (by simpa using this)
        have hFeq := Finset.Subset.antisymm hsubF hsupF
        have : (st.found_transactions.map Prod.fst).toFinset.card =
            targets.hashes.toFinset.card := by rw [hFeq]
        omega
    cases hl : (st.found_transactions.length == targets.hashes.length) with
    | true => exact (hiff.mp hl).symm
    | false =>
      cases hr : (targets.hashes.all fun h => (dictLookup h st.found_transactions).isSome) with
      | true => rw [← hiff.mpr hr, hl]
      | false => rfl

theorem searchRun_eq_specStop_aux (targets : SearchTargets) (hnd : targets.hashes.Nodup) :
    ∀ (hits : List (Option SearchSnapshot)) (n : Nat) (st : SearchState),
      SearchInv targets st →
        (searchRun targets n hits st).total_hits = specStop targets n hits st := by
  intro hits
  induction hits with
  | nil => intro n st _; rfl
  | cons h rest ih =>
    intro n st hinv
    have hinv' := searchInv_processHit targets n h st hinv
    have hcond := exitCond_eq_allFoundNow targets (processHit targets n h st) hnd hinv'
    simp only [searchRun, specStop]
    rw [hcond]
    by_cases hb : allFoundNow targets (processHit targets n h st) = true
    · rw [if_pos hb, if_pos hb]
    · rw [if_neg hb, if_neg hb]
      exact ih (n + 1) _ hinv'

theorem searchRun_no_hashes (targets : SearchTargets) (hne : targets.hashes = []) :
    ∀ (hits : List (Option SearchSnapshot)) (n : Nat) (st : SearchState),
      (searchRun targets n hits st).total_hits = st.total_hits + hits.length := by
  intro hits
  induction hits with
  | nil => intro n st; simp [searchRun]
  | cons h rest ih =>
    intro n st
    have hcond : exitCond targets (processHit targets n h st) = false := by
      unfold exitCond
      simp [hne]
    simp only [searchRun]
    rw [hcond]
    simp only [Bool.false_eq_true, if_false]
    rw [ih (n + 1) (processHit targets n h st), processHit_total]
    simp only [List.length_cons]
    omega

/-- C5: with duplicate-free target hashes, the search loop stops exactly
at the round determined by the spec-side scheduler `specStop` — the first
round after which every target hash has a `found_by_hash` entry, or the
full budget when that never happens — and an address-only search (no
target hashes) always runs the full hit budget. -/
theorem search_early_exit (targets : SearchTargets) (hnd : targets.hashes.Nodup)
    (hits : List (Option SearchSnapshot)) :
    (search_transactions targets hits).total_hits =
      specStop targets 1 hits initSearchState ∧
    (targets.hashes = [] → (search_transactions targets hits).total_hits = hits.length) := by
  constructor
  · exact searchRun_eq_specStop_aux targets hnd hits 1 initSearchState (searchInv_init targets)
  · intro hne
    have h := searchRun_no_hashes targets hne hits 1 initSearchState
    simpa [search_transactions, initSearchState] using h

/-- C5 witness: targets `{0xaa, 0xbb}` with budget 3; round 1 finds only
`0xaa`, round 2 finds `0xbb`; the run stops after round 2 (round 3 is
never issued) and agrees with the spec-side scheduler. -/
theorem search_early_exit_witness :
    ([exHashA, exHashB] : List Str).Nodup ∧
    (search_transactions ⟨[exHashA, exHashB], []⟩
        [some exSnapPA, some exSnapQB, some exSnapPA]).total_hits =
      specStop ⟨[exHashA, exHashB], []⟩ 1
        [some exSnapPA, some exSnapQB, some exSnapPA] initSearchState ∧
    (search_transactions ⟨[exHashA, exHashB], []⟩
        [some exSnapPA, some exSnapQB, some exSnapPA]).total_hits = 2 :=
  ⟨by decide,
    (search_early_exit ⟨[exHashA, exHashB], []⟩ (by decide)
      [some exSnapPA, some exSnapQB, some exSnapPA]).1,
    by decide⟩

/-!
## C10 — duplicated target hashes defeat the early exit
-/

theorem exitCond_false_of_dup (targets : SearchTargets) (st : SearchState)
    (hdup : ¬ targets.hashes.Nodup) (hinv : SearchInv targets st) :
    exitCond targets st = false := by
  rcases hinv with ⟨hnodk, hsub⟩
  have hsubF : (st.found_transactions.map Prod.fst).toFinset ⊆ targets.hashes.toFinset := by
    intro k hk
    rw [List.mem_toFinset] at hk ⊢
    exact hsub k hk
  have hkc : (st.found_transactions.map Prod.fst).toFinset.card =
      (st.found_transactions.map Prod.fst).length :=
    List.toFinset_card_of_nodup hnodk
  have hlt := toFinset_card_lt_of_not_nodup hdup
  have hcard := Finset.card_le_card hsubF
  have hlenlt : st.found_transactions.length < targets.hashes.length := by
    have hlen : st.found_transactions.length =
        (st.found_transactions.map Prod.fst).length := by simp
    omega
  unfold exitCond
  have hbeq : (st.found_transactions.length == targets.hashes.length) = false := by
    simp only [beq_eq_false_iff_ne, ne_eq]
    omega
  rw [hbeq]
  simp

theorem searchRun_full_of_dup (targets : SearchTargets) (hdup : ¬ targets.hashes.Nodup) :
    ∀ (hits : List (Option SearchSnapshot)) (n : Nat) (st : SearchState),
      SearchInv targets st →
        (searchRun targets n hits st).total_hits = st.total_hits + hits.length ∧
        SearchInv targets (searchRun targets n hits st) := by
  intro hits
  induction hits with
  | nil => intro n st hinv; exact ⟨by simp [searchRun], hinv⟩
  | cons h rest ih =>
    intro n st hinv
    have hinv' := searchInv_processHit targets n h st hinv
    have hcond := exitCond_false_of_dup targets (processHit targets n h st) hdup hinv'
    simp only [searchRun]
    rw [hcond]
    simp only [Bool.false_eq_true, if_false]
    obtain ⟨ht, hi⟩ := ih (n + 1) (processHit targets n h st) hinv'
    refine ⟨?_, hi⟩
    rw [ht, processHit_total]
    simp only [List.length_cons]
    omega

/-- C10: when the (non-deduplicated) target hash list contains a
duplicate, the early-exit condition compares the number of distinct found
hashes against the list's length and can never be satisfied, so the
search always runs the full hit budget. -/
theorem dup_targets_full_budget (targets : SearchTargets) (hdup : ¬ targets.hashes.Nodup)
    (hits : List (Option SearchSnapshot)) :
    (search_transactions targets hits).total_hits = hits.length ∧
    exitCond targets (search_transactions targets hits) = false := by
  obtain ⟨ht, hi⟩ :=
    searchRun_full_of_dup targets hdup hits 1 initSearchState (searchInv_init targets)
  constructor
  · rw [search_transactions, ht]
    simp [initSearchState]
  · exact exitCond_false_of_dup targets _ hdup hi

/-- C10 witness: the duplicated target list `[0xaa, 0xaa]` with a budget
of 3 rounds, each of which observes `0xaa` — the run still issues all 3
rounds. -/
theorem dup_targets_full_budget_witness :
    ¬ ([exHashA, exHashA] : List Str).Nodup ∧
    (search_transactions ⟨[exHashA, exHashA], []⟩
        [some exSnapPA, some exSnapPA, some exSnapPA]).total_hits = 3 :=
  ⟨by decide,
    (dup_targets_full_budget ⟨[exHashA, exHashA], []⟩ (by decide)
      [some exSnapPA, some exSnapPA, some exSnapPA]).1⟩

/-!
## C6 — match-record update discipline
-/

/-- C6 (amended): the `found_by_hash` record for a target hash is written
unconditionally at every observation — last writer wins.  After
processing an observation of a target hash at hit `hit` with status
`status`, sender `addrN`, parsed nonce `n` and raw record `d`, the stored
record is exactly `⟨status, addrN, n, d, hit⟩`, whatever was stored
before; `found_in_hit`, status, sender, nonce and the raw summary all
reflect the most recent observation. -/
theorem match_record_last_writer (targets : SearchTargets) (hit : Nat)
    (status addrN nstr : Str) (d : TxData) (st : SearchState) (n : Nat)
    (hn : parse_nonce nstr = some n)
    (hh : normalize_tx_hash d.hash ∈ targets.hashes) :
    ∃ st', processEntry targets hit status addrN nstr (some d) st = some st' ∧
      dictLookup (normalize_tx_hash d.hash) st'.found_transactions =
        some ⟨status, addrN, n, d, hit⟩ := by
  refine ⟨applyMatch targets (normalize_tx_hash d.hash) ⟨status, addrN, n, d, hit⟩ st, ?_, ?_⟩
  · unfold processEntry
    rw [hn]
  · rw [applyMatch_ft, if_pos hh]
    exact dictLookup_dictInsert_self _ _ _

/-- C6 witness: a second observation of target `0xaa` (hit 2, queued,
sender `0x02`, nonce 9) overwrites a prior hit-1 pending record. -/
theorem match_record_last_writer_witness :
    ∃ st', processEntry ⟨[exHashA], []⟩ 2 queuedStr exAddr2 ['9'] (some ⟨exHashA, []⟩)
        { initSearchState with found_transactions :=
            [(exHashA, ⟨pendingStr, exAddr1, 7, ⟨exHashA, []⟩, 1⟩)] } = some st' ∧
      dictLookup (normalize_tx_hash exHashA) st'.found_transactions =
        some ⟨queuedStr, exAddr2, 9, ⟨exHashA, []⟩, 2⟩ :=
  match_record_last_writer ⟨[exHashA], []⟩ 2 queuedStr exAddr2 ['9'] ⟨exHashA, []⟩
    { initSearchState with found_transactions :=
        [(exHashA, ⟨pendingStr, exAddr1, 7, ⟨exHashA, []⟩, 1⟩)] } 9
    (by decide) (by decide)

/-- C6 counterexample: target `0xaa` is first observed in hit 1 (pending,
sender `0x01`, nonce 7) and again in hit 2 (queued, sender `0x02`, nonce
9).  After hit 2 the stored record carries `found_in_hit = 2` and the
hit-2 status, sender and nonce — every "first seen" attribute has been
overwritten, refuting first-writer-wins. -/
theorem match_record_first_seen_cex :
    dictLookup exHashA (search_transactions ⟨[exHashA, exHashB], []⟩
        [some exSnapPA, some exSnapQA]).found_transactions =
      some ⟨queuedStr, exAddr2, 9, ⟨exHashA, []⟩, 2⟩ ∧
    dictLookup exHashA (search_transactions ⟨[exHashA, exHashB], []⟩
        [some exSnapPA]).found_transactions =
      some ⟨pendingStr, exAddr1, 7, ⟨exHashA, []⟩, 1⟩ := by
  decide

/-!
## C7 — malformed snapshot entries
-/

/-- C7 (amended): in `txpool_probe.py` a malformed nonce string causes
only the offending entry to be skipped — removing it from the queued
collection or the pending harvest changes nothing — while in
`tx_search.py` the unguarded `int()` aborts the remainder of the entry
list: entries processed before the malformed one stay ingested, the
entries after it are dropped, and the iteration reports failure (the hit
is counted failed; the loop then continues with the next round). -/
theorem malformed_entry_handling (nstr : Str) (hbad : parse_nonce nstr = none) :
    (∀ (a sum : Str) (pre post : List (Str × Str)) (acc : List QueuedEntry),
      collectBlock a (pre ++ (nstr, sum) :: post) acc = collectBlock a (pre ++ post) acc) ∧
    (∀ (a : Str) (pre post : List Str) (pn : Str → Finset Nat),
      harvestBlock a (pre ++ nstr :: post) pn = harvestBlock a (pre ++ post) pn) ∧
    (∀ (targets : SearchTargets) (hit : Nat) (status addrN : Str) (d : TxData)
        (pre post : List (Str × Option TxData)) (st : SearchState),
      processEntries targets hit status addrN (pre ++ (nstr, some d) :: post) st =
        ((processEntries targets hit status addrN pre st).1, false)) := by
  refine ⟨?_, ?_, ?_⟩
  · intro a sum pre post acc
    rw [collectBlock_eq, collectBlock_eq]
    simp [List.filterMap_append, List.filterMap_cons, hbad]
  · intro a pre post pn
    rw [harvestBlock_eq, harvestBlock_eq]
    simp [List.filterMap_append, List.filterMap_cons, hbad]
  · intro targets hit status addrN d pre post
    induction pre with
    | nil =>
      intro st
      simp only [List.nil_append, processEntries, processEntry, hbad]
    | cons p pre' ih =>
      intro st
      obtain ⟨ns, v⟩ := p
      simp only [List.cons_append, processEntries]
      cases hpe : processEntry targets hit status addrN ns v st with
      | none => rfl
      | some st2 => exact ih st2

/-- C7 witness: removing the malformed entry `zz` from a probe queued
block leaves the collected entries unchanged — only the offending entry
is skipped there. -/
theorem malformed_entry_handling_witness :
    parse_nonce ['z', 'z'] = none ∧
    collectBlock exAddr1
        ([(['1'], exSummaryFee)] ++ (['z', 'z'], exSummaryFee) :: [(['2'], exSummaryFee)]) [] =
      collectBlock exAddr1 ([(['1'], exSummaryFee)] ++ [(['2'], exSummaryFee)]) [] :=
  ⟨by decide,
    (malformed_entry_handling ['z', 'z'] (by decide)).1 exAddr1 exSummaryFee
      [(['1'], exSummaryFee)] [(['2'], exSummaryFee)] []⟩

/-- C7 counterexample: a snapshot whose pending block holds, in order, a
well-formed entry for target `0xaa`, an entry with malformed nonce `zz`,
and a well-formed entry for target `0xcc`.  In `tx_search.py` the
malformed entry is not merely skipped: `0xaa` (before it) is ingested but
`0xcc` (after it, in the same snapshot) is not, and the hit counts as
failed — refuting "only the single offending entry is skipped".  The run
itself continues (the failure is not fatal). -/
theorem malformed_entry_fatal_cex :
    parse_nonce ['z', 'z'] = none ∧
    parse_nonce ['2'] = some 2 ∧
    dictLookup exHashA (search_transactions ⟨[exHashA, exHashC], []⟩
        [some exBadSnap]).found_transactions ≠ none ∧
    dictLookup exHashC (search_transactions ⟨[exHashA, exHashC], []⟩
        [some exBadSnap]).found_transactions = none ∧
    (search_transactions ⟨[exHashA, exHashC], []⟩ [some exBadSnap]).failed_hits = 1 ∧
    (search_transactions ⟨[exHashA, exHashC], []⟩
        [some exBadSnap, some exBadSnap]).total_hits = 2 := by
  decide
